import Mathlib

/-!
Verification development for the `jsonenv` library (`src/lib/main.js`).

The JavaScript source is shallowly embedded: JavaScript values become the
inductive type `JValue`, JavaScript builtins that the source calls
(`Number`, `JSON.parse`, `String.prototype.trim`, `String.prototype.split`,
`Object.keys`, property get/set, `typeof`, truthiness) are modelled as Lean
functions on `JValue`/`String`, and the source functions `deflate`,
`deflateKeys`, `inflate`, `_inflateItem` (here `inflateItem`), `merge`,
`mergeEnvObject`, `mergeEnvJsonValue` and `mergeEnvArray` are translated
clause by clause.  Thrown exceptions become `Except MergeError`, and the
ambient `process.env` becomes an explicit association-list parameter.
Recursion through parsed JSON values is not structural, so the merge
functions carry a fuel parameter; `MergeError.outOfFuel` is the
corresponding modelling artifact and is never produced at adequate fuel.
-/

set_option maxHeartbeats 4000000
set_option maxRecDepth 8000

namespace JsonEnv

/-- A JavaScript value as manipulated by the library.  Arrays are modelled
the way JavaScript stores them: a `length` plus string-keyed own properties
(indices are stored under their canonical decimal strings, which also lets
sparse arrays and string-keyed array properties be represented).  `undef`
is JavaScript `undefined`. -/
inductive JValue where
  | undef
  | null
  | bool (b : Bool)
  | num (q : Rat)
  | str (s : String)
  | arr (len : Nat) (props : List (String × JValue))
  | obj (props : List (String × JValue))

-- Boolean equality on `JValue`, written by hand: `deriving DecidableEq`
-- does not handle the nested `List` occurrence on this toolchain.
mutual

def beqJ : JValue → JValue → Bool
  | .undef, .undef => true
  | .null, .null => true
  | .bool a, .bool b => a == b
  | .num a, .num b => a == b
  | .str a, .str b => a == b
  | .arr l1 p1, .arr l2 p2 => l1 == l2 && beqProps p1 p2
  | .obj p1, .obj p2 => beqProps p1 p2
  | _, _ => false

def beqProps : List (String × JValue) → List (String × JValue) → Bool
  | [], [] => true
  | (k1, v1) :: r1, (k2, v2) :: r2 => k1 == k2 && beqJ v1 v2 && beqProps r1 r2
  | _, _ => false

end

theorem beqJ_iff : ∀ (n : Nat) (a b : JValue), sizeOf a ≤ n →
    (beqJ a b = true ↔ a = b) := by
  intro n
  induction n with
  | zero => intro a b h; cases a <;> simp_all
  | succ n ih =>
    have ihL : ∀ (p q : List (String × JValue)), sizeOf p ≤ n + 1 →
        (beqProps p q = true ↔ p = q) := by
      intro p
      induction p with
      | nil => intro q _; cases q <;> simp [beqProps]
      | cons hd tl ihtl =>
        intro q hs
        cases q with
        | nil => simp [beqProps]
        | cons hd' tl' =>
          obtain ⟨k1, v1⟩ := hd
          obtain ⟨k2, v2⟩ := hd'
          have hv : sizeOf v1 ≤ n := by simp at hs; omega
          have ht : sizeOf tl ≤ n + 1 := by simp at hs; omega
          have hv' := ih v1 v2 hv
          have ht' := ihtl tl' ht
          simp only [beqProps, Bool.and_eq_true, beq_iff_eq, hv', ht',
            List.cons.injEq, Prod.mk.injEq]
          try tauto
    intro a b hs
    cases a <;> cases b <;>
      simp_all [beqJ] <;>
      first
      | rfl
      | (apply ihL; omega)
      | (intro _; apply ihL; omega)

instance : DecidableEq JValue := fun a b =>
  decidable_of_iff (beqJ a b = true) (beqJ_iff (sizeOf a) a b (Nat.le_refl _))

namespace JValue

/-- JavaScript truthiness.  (`NaN` cannot appear as a stored `num`, so the
numeric case only tests for zero.) -/
def truthy : JValue → Bool
  | undef => false
  | null => false
  | bool b => b
  | num q => q != 0
  | str s => s != ""
  | arr _ _ => true
  | obj _ => true

/-- JavaScript `typeof`. -/
def typeofJs : JValue → String
  | undef => "undefined"
  | null => "object"
  | bool _ => "boolean"
  | num _ => "number"
  | str _ => "string"
  | arr _ _ => "object"
  | obj _ => "object"

/-- `Array.isArray`. -/
def isArray : JValue → Bool
  | arr _ _ => true
  | _ => false

end JValue

open JValue

/-- Is `s` a canonical array-index string: nonempty, all decimal digits, no
leading zero except `"0"` itself?  (JavaScript limits indices to `2^32 - 2`;
that bound is irrelevant to every claim and is not modelled.) -/
def isCanonIdx (s : String) : Bool :=
  !s.data.isEmpty && s.data.all Char.isDigit &&
    (s == "0" || s.data.head? != some '0')

/-- Numeric value of a canonical index string. -/
def idxVal (s : String) : Nat :=
  s.data.foldl (fun n c => n * 10 + (c.toNat - 48)) 0

/-- Insert an index-key into an ascending (by `idxVal`) list. -/
def insertIdx (x : String) : List String → List String
  | [] => [x]
  | y :: ys => if idxVal x ≤ idxVal y then x :: y :: ys else y :: insertIdx x ys

/-- Sort index-key strings ascending by numeric value. -/
def sortIdx (l : List String) : List String :=
  l.foldr insertIdx []

/-- JavaScript own-property enumeration order over a key list: canonical
array-index keys first, ascending numerically, then the remaining keys in
insertion order. -/
def enumOrderKeys (names : List String) : List String :=
  sortIdx (names.filter (fun k => isCanonIdx k)) ++
    names.filter (fun k => !isCanonIdx k)

/-- `Object.keys`.  On primitives JavaScript returns `[]`; on
`null`/`undefined` it throws a `TypeError` — no claim exercises that, and we
return `[]` there as well. -/
def keysOf : JValue → List String
  | JValue.obj props => enumOrderKeys (props.map Prod.fst)
  | JValue.arr _ props => enumOrderKeys (props.map Prod.fst)
  | _ => []

/-- First binding of `k` in an association list. -/
def lookupProp (props : List (String × JValue)) (k : String) : Option JValue :=
  (props.find? (fun p => p.1 = k)).map Prod.snd

/-- JavaScript property read `v[k]` (for the string keys the library uses).
Missing properties and reads on primitives give `undefined`; reads on
`null`/`undefined` would throw in JavaScript and are not exercised. -/
def getProp : JValue → String → JValue
  | JValue.obj props, k => (lookupProp props k).getD JValue.undef
  | JValue.arr _ props, k => (lookupProp props k).getD JValue.undef
  | _, _ => JValue.undef

/-- Set `k` in an association list: update in place if present (keeping its
position, as JavaScript objects do), else append. -/
def setAssoc : List (String × JValue) → String → JValue →
    List (String × JValue)
  | [], k, v => [(k, v)]
  | p :: rest, k, v =>
      if p.1 = k then (k, v) :: rest else p :: setAssoc rest k v

/-- JavaScript property write `v[k] = x`.  Writing a canonical index onto an
array grows its `length`; writes to primitives are silent no-ops (non-strict
mode). -/
def jsSet : JValue → String → JValue → JValue
  | JValue.obj props, k, x => JValue.obj (setAssoc props k x)
  | JValue.arr len props, k, x =>
      JValue.arr (if isCanonIdx k then max len (idxVal k + 1) else len)
        (setAssoc props k x)
  | v, _, _ => v

/-- `length` of an array value (`0` elsewhere; only used on arrays). -/
def jsLen : JValue → Nat
  | JValue.arr len _ => len
  | _ => 0

/-- Own properties of an array/object value. -/
def propsOf : JValue → List (String × JValue)
  | JValue.arr _ props => props
  | JValue.obj props => props
  | _ => []

/-! ### Models of the string builtins the source calls

`String.prototype.trim`, `String.prototype.split('.')`,
`String.prototype.toLowerCase`, `String.prototype.startsWith` and the
`Number(string)` conversion are modelled over `List Char` so that they
evaluate cheaply in the kernel.  JavaScript trims full Unicode whitespace
and `Number` additionally accepts `Infinity` literals; the ASCII subset and
finite decimals modelled here cover everything the claims exercise, and the
well-formed key classes used in the round-trip theorems exclude the
`Infinity` literals explicitly. -/

/-- ASCII whitespace (the subset of JavaScript's trimmed characters the
claims can hit). -/
def isWsChar (c : Char) : Bool :=
  c = ' ' || c = '\t' || c = '\n' || c = '\r' ||
    c = Char.ofNat 11 || c = Char.ofNat 12

/-- `String.prototype.trim`. -/
def jsTrim (s : String) : String :=
  String.mk (((s.data.dropWhile isWsChar).reverse.dropWhile isWsChar).reverse)

/-- Helper for `split('.')`: `cur` is the current segment, reversed. -/
def splitDotsAux : List Char → List Char → List String
  | [], cur => [String.mk cur.reverse]
  | c :: rest, cur =>
      if c = '.' then String.mk cur.reverse :: splitDotsAux rest []
      else splitDotsAux rest (c :: cur)

/-- `key.trim().split('.')` as performed by `inflate`. -/
def splitKey (k : String) : List String :=
  splitDotsAux (jsTrim k).data []

/-- `String.prototype.toLowerCase` (ASCII). -/
def jsToLower (s : String) : String :=
  String.mk (s.data.map Char.toLower)

/-- `String.prototype.startsWith`. -/
def jsStartsWith (s pre : String) : Bool :=
  pre.data.isPrefixOf s.data

/-- Numeric value of a decimal digit list. -/
def digitsToNat (cs : List Char) : Nat :=
  cs.foldl (fun n c => n * 10 + (c.toNat - 48)) 0

/-- `ip.fp` as an unreduced numerator/denominator pair.  (Kept as a pair
because the `Rat` arithmetic operations are `@[irreducible]` and would not
evaluate under `decide`; `mkRat` is applied once at the end.) -/
def decPair (ip fp : List Char) : Int × Nat :=
  ((digitsToNat (ip ++ fp) : Int), 10 ^ fp.length)

/-- Multiply a numerator/denominator pair by a signed power of ten. -/
def applyExpPair (p : Int × Nat) (e : Int) : Int × Nat :=
  if 0 ≤ e then (p.1 * ((10 : Nat) ^ e.toNat : Nat), p.2)
  else (p.1, p.2 * 10 ^ (-e).toNat)

/-- Unsigned decimal literal `digits? ('.' digits?)? ([eE] sign? digits)?`
with at least one digit, consuming the whole input. -/
def parseUnsignedDec (cs : List Char) : Option (Int × Nat) :=
  let ip := cs.takeWhile Char.isDigit
  let r1 := cs.dropWhile Char.isDigit
  let fp :=
    match r1 with
    | '.' :: rest => rest.takeWhile Char.isDigit
    | _ => []
  let r2 :=
    match r1 with
    | '.' :: rest => rest.dropWhile Char.isDigit
    | _ => r1
  if ip.isEmpty && fp.isEmpty then none
  else
    match r2 with
    | [] => some (decPair ip fp)
    | c :: rest =>
        if c = 'e' ∨ c = 'E' then
          let sgn : Int :=
            match rest with
            | '-' :: _ => -1
            | _ => 1
          let rest2 :=
            match rest with
            | '-' :: t => t
            | '+' :: t => t
            | t => t
          let ed := rest2.takeWhile Char.isDigit
          if ed.isEmpty ∨ ¬(rest2.dropWhile Char.isDigit).isEmpty then none
          else some (applyExpPair (decPair ip fp) (sgn * (digitsToNat ed : Int)))
        else none

/-- Value of a digit character in radix ≤ 36, if valid. -/
def radixDigit (radix : Nat) (c : Char) : Option Nat :=
  let v :=
    if c.isDigit then some (c.toNat - 48)
    else if 'a' ≤ c ∧ c ≤ 'z' then some (c.toNat - 87)
    else if 'A' ≤ c ∧ c ≤ 'Z' then some (c.toNat - 55)
    else none
  match v with
  | some d => if d < radix then some d else none
  | none => none

/-- Nonempty digit string in the given radix, consuming the whole input. -/
def parseRadix (radix : Nat) (cs : List Char) : Option Rat :=
  if cs.isEmpty then none
  else
    (cs.foldl (fun acc c =>
        match acc, radixDigit radix c with
        | some n, some d => some (n * radix + d)
        | _, _ => none) (some 0)).map (fun n => mkRat (n : Int) 1)

/-- The `Number(string)` conversion: trim; empty means `0`; otherwise a
signed decimal literal or an unsigned `0x`/`0o`/`0b` literal; anything else
is `NaN` (`none`).  (`Infinity` literals are not representable as `Rat` and
are treated as `NaN`; the theorems below never rely on them.) -/
def jsNumberStr (s : String) : Option Rat :=
  match (jsTrim s).data with
  | [] => some 0
  | '+' :: rest => (parseUnsignedDec rest).map (fun p => mkRat p.1 p.2)
  | '-' :: rest => (parseUnsignedDec rest).map (fun p => mkRat (-p.1) p.2)
  | '0' :: c :: rest =>
      if c = 'x' ∨ c = 'X' then parseRadix 16 rest
      else if c = 'o' ∨ c = 'O' then parseRadix 8 rest
      else if c = 'b' ∨ c = 'B' then parseRadix 2 rest
      else (parseUnsignedDec ('0' :: c :: rest)).map (fun p => mkRat p.1 p.2)
  | t => (parseUnsignedDec t).map (fun p => mkRat p.1 p.2)

/-- Strip trailing `'0'` characters. -/
def stripTrailingZeros (cs : List Char) : List Char :=
  (cs.reverse.dropWhile (fun c => c = '0')).reverse

/-- The `String(number)` conversion for the numbers the model can hold:
integers print as decimal integers, finite decimals with a decimal point.
(A rational with no finite decimal expansion cannot arise from the modelled
conversions; the fallback rendering is never reached by any claim.) -/
def jsNumToString (q : Rat) : String :=
  if q.den = 1 then toString q.num
  else
    match (List.range 40).find? (fun k => (10 : Nat) ^ (k + 1) % q.den = 0) with
    | some k =>
        let e := k + 1
        let m := (q.num * ((10 : Nat) ^ e / q.den : Nat)).natAbs
        let sign := if q.num < 0 then "-" else ""
        let fdigits := Nat.toDigits 10 (m % 10 ^ e)
        let padded := List.replicate (e - fdigits.length) '0' ++ fdigits
        sign ++ toString (m / 10 ^ e) ++ "." ++ String.mk (stripTrailingZeros padded)
    | none => toString q.num ++ "/" ++ toString q.den

/-- The `String(value)` conversion (`Array.prototype.toString` joins the
elements with `","`, rendering holes, `null` and `undefined` as `""`).
Array recursion is fuelled; every caller passes ample fuel. -/
def jsToString : Nat → JValue → String
  | _, JValue.str s => s
  | _, JValue.num q => jsNumToString q
  | _, JValue.bool b => if b then "true" else "false"
  | _, JValue.null => "null"
  | _, JValue.undef => "undefined"
  | _, JValue.obj _ => "[object Object]"
  | 0, JValue.arr _ _ => ""
  | f + 1, JValue.arr len props =>
      String.intercalate "," ((List.range len).map (fun i =>
        match lookupProp props (toString i) with
        | some v =>
            if v = JValue.null ∨ v = JValue.undef then "" else jsToString f v
        | none => ""))

/-- The `Number(value)` conversion on the values the source can pass
(strings, numbers, booleans, `null`, `undefined`, objects, arrays).
`none` is `NaN`. -/
def jsNumberOf (f : Nat) : JValue → Option Rat
  | JValue.num q => some q
  | JValue.str s => jsNumberStr s
  | JValue.bool b => some (if b then 1 else 0)
  | JValue.null => some 0
  | JValue.undef => none
  | JValue.obj _ => none
  | JValue.arr len props => jsNumberStr (jsToString f (JValue.arr len props))

/-! ### A model of `JSON.parse` -/

/-- JSON insignificant whitespace. -/
def jsonWs (c : Char) : Bool :=
  c = ' ' || c = '\t' || c = '\n' || c = '\r'

/-- Skip JSON whitespace. -/
def skipWs (cs : List Char) : List Char :=
  cs.dropWhile jsonWs

/-- Hexadecimal digit value. -/
def hexDigit (c : Char) : Option Nat := radixDigit 16 c

/-- JSON string body after the opening quote; `acc` is reversed. -/
def jsonStringAux : List Char → List Char → Option (String × List Char)
  | [], _ => none
  | '"' :: rest, acc => some (String.mk acc.reverse, rest)
  | '\\' :: e :: rest, acc =>
      match e with
      | '"' => jsonStringAux rest ('"' :: acc)
      | '\\' => jsonStringAux rest ('\\' :: acc)
      | '/' => jsonStringAux rest ('/' :: acc)
      | 'b' => jsonStringAux rest (Char.ofNat 8 :: acc)
      | 'f' => jsonStringAux rest (Char.ofNat 12 :: acc)
      | 'n' => jsonStringAux rest ('\n' :: acc)
      | 'r' => jsonStringAux rest ('\r' :: acc)
      | 't' => jsonStringAux rest ('\t' :: acc)
      | 'u' =>
          match rest with
          | h1 :: h2 :: h3 :: h4 :: rest2 =>
              match hexDigit h1, hexDigit h2, hexDigit h3, hexDigit h4 with
              | some a, some b, some c, some d =>
                  jsonStringAux rest2
                    (Char.ofNat (((a * 16 + b) * 16 + c) * 16 + d) :: acc)
              | _, _, _, _ => none
          | _ => none
      | _ => none
  | c :: rest, acc =>
      if c.toNat < 32 then none else jsonStringAux rest (c :: acc)

/-- JSON number literal at the head of the input; returns the value and the
unconsumed remainder. -/
def jsonNumber (cs : List Char) : Option (Rat × List Char) :=
  let neg := match cs with | '-' :: _ => true | _ => false
  let cs1 := match cs with | '-' :: t => t | t => t
  let ipOpt : Option (List Char × List Char) :=
    match cs1 with
    | '0' :: rest => some (['0'], rest)
    | c :: rest =>
        if c.isDigit ∧ c ≠ '0' then
          some (c :: rest.takeWhile Char.isDigit, rest.dropWhile Char.isDigit)
        else none
    | [] => none
  match ipOpt with
  | none => none
  | some (ip, r1) =>
      let fpOpt : Option (List Char × List Char) :=
        match r1 with
        | '.' :: rest =>
            let fp := rest.takeWhile Char.isDigit
            if fp.isEmpty then none else some (fp, rest.dropWhile Char.isDigit)
        | _ => some ([], r1)
      match fpOpt with
      | none => none
      | some (fp, r2) =>
          let expOpt : Option (Int × List Char) :=
            match r2 with
            | c :: rest =>
                if c = 'e' ∨ c = 'E' then
                  let sgn : Int := match rest with | '-' :: _ => -1 | _ => 1
                  let rest2 :=
                    match rest with
                    | '-' :: t => t
                    | '+' :: t => t
                    | t => t
                  let ed := rest2.takeWhile Char.isDigit
                  if ed.isEmpty then none
                  else some (sgn * (digitsToNat ed : Int), rest2.dropWhile Char.isDigit)
                else some (0, r2)
            | [] => some (0, r2)
          match expOpt with
          | none => none
          | some (e, r3) =>
              let p := applyExpPair (decPair ip fp) e
              some (mkRat (if neg then -p.1 else p.1) p.2, r3)

mutual

/-- A JSON value at the head of the input. -/
def jsonVal : Nat → List Char → Option (JValue × List Char)
  | 0, _ => none
  | f + 1, cs =>
      match skipWs cs with
      | 't' :: 'r' :: 'u' :: 'e' :: rest => some (JValue.bool true, rest)
      | 'f' :: 'a' :: 'l' :: 's' :: 'e' :: rest => some (JValue.bool false, rest)
      | 'n' :: 'u' :: 'l' :: 'l' :: rest => some (JValue.null, rest)
      | '"' :: rest =>
          (jsonStringAux rest []).map (fun p => (JValue.str p.1, p.2))
      | '[' :: rest =>
          (match skipWs rest with
           | ']' :: rest2 => some (JValue.arr 0 [], rest2)
           | _ => jsonArrItems f (skipWs rest) 0 [])
      | '{' :: rest =>
          (match skipWs rest with
           | '}' :: rest2 => some (JValue.obj [], rest2)
           | _ => jsonObjItems f (skipWs rest) [])
      | cs' => (jsonNumber cs').map (fun p => (JValue.num p.1, p.2))

/-- Comma-separated array elements, then `]`. -/
def jsonArrItems : Nat → List Char → Nat → List (String × JValue) →
    Option (JValue × List Char)
  | 0, _, _, _ => none
  | f + 1, cs, i, acc =>
      match jsonVal f cs with
      | none => none
      | some (v, rest) =>
          let acc' := acc ++ [(toString i, v)]
          match skipWs rest with
          | ',' :: rest2 => jsonArrItems f (skipWs rest2) (i + 1) acc'
          | ']' :: rest2 => some (JValue.arr (i + 1) acc', rest2)
          | _ => none

/-- Comma-separated object members, then `}`.  Duplicate keys keep the last
binding, as `JSON.parse` does. -/
def jsonObjItems : Nat → List Char → List (String × JValue) →
    Option (JValue × List Char)
  | 0, _, _ => none
  | f + 1, cs, acc =>
      match cs with
      | '"' :: rest =>
          (match jsonStringAux rest [] with
           | none => none
           | some (k, rest2) =>
               match skipWs rest2 with
               | ':' :: rest3 =>
                   (match jsonVal f (skipWs rest3) with
                    | none => none
                    | some (v, rest4) =>
                        let acc' := setAssoc acc k v
                        match skipWs rest4 with
                        | ',' :: rest5 => jsonObjItems f (skipWs rest5) acc'
                        | '}' :: rest5 => some (JValue.obj acc', rest5)
                        | _ => none)
               | _ => none)
      | _ => none

end

/-- `JSON.parse` on a string: parse one value and require only whitespace
to remain.  A `none` result models the thrown `SyntaxError`. -/
def jsonParse (s : String) : Option JValue :=
  match jsonVal (4 * s.data.length + 4) s.data with
  | some (v, rest) => if (skipWs rest).isEmpty then some v else none
  | none => none

/-- `JSON.parse(x)` as the source calls it: a non-string argument is first
converted with `String(x)`. -/
def jsonParseJs (f : Nat) (v : JValue) : Option JValue :=
  match v with
  | JValue.str s => jsonParse s
  | other => jsonParse (jsToString f other)

/-- A dense JavaScript array holding the given elements in order. -/
def denseArr (l : List JValue) : JValue :=
  JValue.arr l.length (l.enum.map (fun p => (toString p.1, p.2)))

/-! ### PathCodec: `deflate`, `deflateKeys`, `_inflateItem`, `inflate` -/

/-- The object spread `{ ...result, ...sub }`: later bindings win, existing
keys keep their position. -/
def spreadMerge (result sub : List (String × JValue)) :
    List (String × JValue) :=
  sub.foldl (fun acc p => setAssoc acc p.1 p.2) result

/-- `deflate(json, prefix)` from the source: walk `Object.keys(json)`; a
truthy value of object type with at least one own key recurses with
`prefix + key + "."`, anything else is recorded as a leaf under
`prefix + key`.  (The source's unused `keysOnly` flag is dropped; the
recursion through `getProp` is not structural, hence the fuel, which every
caller passes well in excess of the tree depth.) -/
def deflate : Nat → JValue → String → List (String × JValue)
  | 0, _, _ => []
  | f + 1, json, pfx =>
      (keysOf json).foldl (fun result key =>
        let value := getProp json key
        let valueKeys := keysOf value
        if value.truthy && (typeofJs value = "object" : Bool) && !valueKeys.isEmpty then
          let currPfx := key ++ "."
          spreadMerge result
            (deflate f value (if pfx = "" then currPfx else pfx ++ currPfx))
        else
          setAssoc result (if pfx = "" then key else pfx ++ key) value) []

/-- `deflateKeys(json)`: the keys of `deflate(json, '', true)`. -/
def deflateKeys (f : Nat) (json : JValue) : List String :=
  (deflate f json "").map Prod.fst

/-- The source expression `result[key] || {}`: a falsy value is replaced by
a fresh empty object. -/
def orEmpty (t : JValue) : JValue :=
  if t.truthy then t else JValue.obj []

/-- `_inflateItem(keys, value, result)` from the source.  When the first
segment parses as a number (`!isNaN(Number(key))`) and `result` has no own
keys, `result` is rebound to a fresh array and the segment's numeric value
is used as the key; a numeric property key is stringified on write. -/
def inflateItem : List String → JValue → JValue → JValue
  | [], _, result => result
  | key :: rest, value, result0 =>
      let rebind := (jsNumberStr key).isSome && (keysOf result0).isEmpty
      let result := if rebind then JValue.arr 0 [] else result0
      let keyStr :=
        match jsNumberStr key, rebind with
        | some n, true => jsNumToString n
        | _, _ => key
      if rest.isEmpty then jsSet result keyStr value
      else
        jsSet result keyStr
          (inflateItem rest value (orEmpty (getProp result keyStr)))

/-- One `_inflateItem(keys, value, result)` call as issued by `inflate`:
the source discards the return value, so when `_inflateItem` rebinds its
`result` parameter to a fresh array (numeric first segment into an empty
target) the mutation is lost and `result` is returned unchanged; otherwise
the mutation is exactly the returned value. -/
def inflateTop (keys : List String) (value result : JValue) : JValue :=
  match keys with
  | key :: _ =>
      if (jsNumberStr key).isSome && (keysOf result).isEmpty then result
      else inflateItem keys value result
  | [] => result

/-- Insert an entry with an index key into an ascending (by `idxVal`)
entry list. -/
def insertIdxEntry (x : String × JValue) :
    List (String × JValue) → List (String × JValue)
  | [] => [x]
  | y :: ys =>
      if idxVal x.1 ≤ idxVal y.1 then x :: y :: ys else y :: insertIdxEntry x ys

/-- The entries of a flat object in JavaScript `for…in` order: canonical
index keys first, ascending, then the rest in insertion order. -/
def enumEntries (l : List (String × JValue)) : List (String × JValue) :=
  (l.filter (fun p => isCanonIdx p.1)).foldr insertIdxEntry [] ++
    l.filter (fun p => !isCanonIdx p.1)

/-- `inflate(obj)` from the source: iterate the flat object's entries in
`for…in` order, split each key on `.` after trimming it, and place the
value with `_inflateItem` (whose return value the source ignores, see
`inflateTop`). -/
def inflate (entries : List (String × JValue)) : JValue :=
  (enumEntries entries).foldl
    (fun result p => inflateTop (splitKey p.1) p.2 result) (JValue.obj [])

/-! ### TypeCoercer and Merger -/

/-- The errors the source throws.  The first three carry the source's
message strings (`"Properties type doesn't matched"`,
`"Invalid json string"`, `"Invalid json array string"`); `jsonSyntax` is
the `SyntaxError` that `JSON.parse` itself throws on malformed input;
`outOfFuel` is a modelling artifact that never occurs at adequate fuel. -/
inductive MergeError where
  | typeMismatch
  | invalidJsonString
  | invalidJsonArrayString
  | jsonSyntax
  | outOfFuel
  deriving DecidableEq, Repr

instance {ε α : Type} [DecidableEq ε] [DecidableEq α] :
    DecidableEq (Except ε α) := fun a b =>
  match a, b with
  | .ok x, .ok y =>
      if h : x = y then isTrue (by rw [h]) else isFalse (by simp [h])
  | .error x, .error y =>
      if h : x = y then isTrue (by rw [h]) else isFalse (by simp [h])
  | .ok _, .error _ => isFalse (by simp)
  | .error _, .ok _ => isFalse (by simp)

/-- `Array.prototype.map` with an effectful callback that can throw:
iterate the indices `0 … len-1` in order, skip holes, keep the length. -/
def arrMapM (g : Nat → JValue → Except MergeError JValue) (len : Nat)
    (props : List (String × JValue)) : Except MergeError JValue :=
  match ((List.range len).foldlM (fun acc i =>
      match lookupProp props (toString i) with
      | some v =>
          match g i v with
          | .error e => .error e
          | .ok r => .ok (acc ++ [(toString i, r)])
      | none => .ok acc) [] :
        Except MergeError (List (String × JValue))) with
  | .error e => .error e
  | .ok newProps => .ok (JValue.arr len newProps)

/-- `[...new Set([...a, ...b])]`: concatenation keeping first occurrences. -/
def dedupFirst (l : List String) : List String :=
  l.foldl (fun acc k => if k ∈ acc then acc else acc ++ [k]) []

mutual

/-- `mergeEnvJsonValue(defaultValue, envValue, defaultType)` from the
source, translated clause by clause.  `defaultType` is the optional third
JavaScript argument.  The `typeOfDj = ""` branch mirrors the source's
`!typeOfDj` test; since `typeof` never yields an empty string it is
unreachable, exactly as in the source. -/
def mergeEnvJsonValue : Nat → JValue → JValue → Option String →
    Except MergeError JValue
  | 0, _, _, _ => .error .outOfFuel
  | f + 1, defaultValue, envValue, defaultType =>
      if envValue.truthy then
        let lhs : Option String :=
          if defaultValue ≠ JValue.null ∧ defaultValue ≠ JValue.undef then
            some (typeofJs defaultValue)
          else defaultType
        let typeOfDj : String :=
          match lhs with
          | some s => if s = "" then typeofJs envValue else s
          | none => typeofJs envValue
        if typeOfDj = "array" ∨ defaultValue.isArray then
          mergeEnvArray f defaultValue envValue
        else if typeOfDj = "object" then
          mergeEnvObject f defaultValue envValue
        else if typeOfDj = "boolean" then
          match jsonParseJs f envValue with
          | none => .error .jsonSyntax
          | some value =>
              if value = JValue.bool true ∨ value = JValue.bool false then
                .ok value
              else .error .typeMismatch
        else if typeOfDj = "number" then
          match jsNumberOf f envValue with
          | none => .error .typeMismatch
          | some q => .ok (JValue.num q)
        else if typeOfDj = "" then
          let strValue := jsTrim (jsToString f envValue)
          match jsNumberStr strValue with
          | some n => .ok (JValue.num n)
          | none =>
              if jsStartsWith strValue "\x7b" ∨ jsStartsWith strValue "[" then
                match jsonParse strValue with
                | some v => .ok v
                | none => .ok defaultValue
              else if jsToLower strValue = "true" then .ok (JValue.bool true)
              else if jsToLower strValue = "false" then .ok (JValue.bool false)
              else .ok (JValue.str strValue)
        else .ok envValue
      else .ok defaultValue

/-- `mergeEnvObject(defaultJson, envValue)` from the source.  The JavaScript
default parameter `defaultJson = {}` fires only on `undefined`. -/
def mergeEnvObject : Nat → JValue → JValue → Except MergeError JValue
  | 0, _, _ => .error .outOfFuel
  | f + 1, defaultJson0, envValue0 =>
      let defaultJson :=
        if defaultJson0 = JValue.undef then JValue.obj [] else defaultJson0
      if envValue0 = JValue.null ∨ envValue0 = JValue.undef then .ok defaultJson
      else
        let envValueE : Except MergeError JValue :=
          if typeofJs envValue0 ≠ "object" then
            if typeofJs envValue0 = "string" then
              match jsonParseJs f envValue0 with
              | none => .error .jsonSyntax
              | some tmp =>
                  if typeofJs tmp = "object" then .ok tmp
                  else .error .invalidJsonString
            else .error .typeMismatch
          else .ok envValue0
        match envValueE with
        | .error e => .error e
        | .ok envValue =>
            let keys := dedupFirst (keysOf defaultJson ++ keysOf envValue)
            match (keys.foldlM (fun acc key =>
                match mergeEnvJsonValue f (getProp defaultJson key)
                    (getProp envValue key) none with
                | .error e => .error e
                | .ok r => .ok (setAssoc acc key r)) [] :
                  Except MergeError (List (String × JValue))) with
            | .error e => .error e
            | .ok entries => .ok (JValue.obj entries)

/-- `mergeEnvArray(defaultJson, envValue)` from the source.  The JavaScript
default parameter `defaultJson = []` fires only on `undefined`. -/
def mergeEnvArray : Nat → JValue → JValue → Except MergeError JValue
  | 0, _, _ => .error .outOfFuel
  | f + 1, defaultJson0, envValue0 =>
      let defaultJson :=
        if defaultJson0 = JValue.undef then JValue.arr 0 [] else defaultJson0
      if envValue0 = JValue.null ∨ envValue0 = JValue.undef then .ok defaultJson
      else
        let envValueE : Except MergeError JValue :=
          if !envValue0.isArray then
            if typeofJs envValue0 = "string" then
              match jsonParseJs f envValue0 with
              | none => .error .jsonSyntax
              | some tmp =>
                  if tmp.isArray then .ok tmp
                  else .error .invalidJsonArrayString
            else .error .typeMismatch
          else .ok envValue0
        match envValueE with
        | .error e => .error e
        | .ok envValue =>
            if jsLen defaultJson > 0 then
              let valueType := typeofJs (getProp defaultJson "0")
              if jsLen envValue > jsLen defaultJson then
                arrMapM (fun i value =>
                    mergeEnvJsonValue f (getProp defaultJson (toString i))
                      value (some valueType))
                  (jsLen envValue) (propsOf envValue)
              else
                arrMapM (fun i dvalue =>
                    mergeEnvJsonValue f dvalue (getProp envValue (toString i))
                      (some valueType))
                  (jsLen defaultJson) (propsOf defaultJson)
            else .ok envValue

end

/-- The `envKeys` filter `merge` computes when no explicit key list is
supplied.  The source iterates `for (const key in keys)` where `keys` is an
*array*, so `key` ranges over the array's index strings `"0"`, `"1"`, …,
and the filter keeps the environment keys that start with `"0."`, `"1."`,
…, not the ones extending a default leaf path. -/
def autoEnvKeys (env : List (String × String)) (keys : List String) :
    List String :=
  (env.map Prod.fst).filter (fun envKey =>
    (List.range keys.length).any (fun i =>
      jsStartsWith envKey (toString i ++ ".")))

/-- Lookup in the ambient environment mapping. -/
def envGet (env : List (String × String)) (key : String) : Option String :=
  (env.find? (fun p => p.1 = key)).map Prod.snd

/-- `merge(conf, envKeys)` from the source.  The ambient `process.env` is
passed explicitly as the association list `env` (the design abstraction the
spec itself proposes); everything else follows the source line by line:
collect `deflateKeys(conf)` plus the explicit or derived extra keys, look
each up in the environment keeping defined entries, `inflate`, and merge
into `conf` with `mergeEnvObject`. -/
def merge (f : Nat) (env : List (String × String)) (conf : JValue)
    (envKeys? : Option (List String)) : Except MergeError JValue :=
  let keys := deflateKeys f conf
  let envKeys :=
    match envKeys? with
    | some ks => ks
    | none => autoEnvKeys env keys
  let allKeys := keys ++ envKeys
  let envConfig := allKeys.foldl (fun acc key =>
    match envGet env key with
    | some v => setAssoc acc key (JValue.str v)
    | none => acc) []
  let envJson := inflate envConfig
  mergeEnvObject f conf envJson

/-! ### Well-formed trees and a segment-level mirror of `deflate`

The round-trip theorem for claim C4 is stated for trees of nested
non-empty objects with scalar leaves whose keys are well formed.  The
string-level facts that well-formed dotted paths split back into their
segments are carried as decidable hypotheses (`deflateSegs` below is the
segment-level mirror of `deflate` used to state them), so that concrete
instances discharge them by evaluation. -/

/-- A scalar leaf in the sense of the spec: string, number or boolean. -/
def scalarLeaf : JValue → Bool
  | JValue.str _ => true
  | JValue.num _ => true
  | JValue.bool _ => true
  | _ => false

/-- A well-formed object key: nonempty, not numeric for `Number()` (which
also rules out canonical array indices), and not one of the `Infinity`
literals that the `Rat`-valued `jsNumberStr` cannot represent. -/
def goodKey (k : String) : Bool :=
  !(k == "") && (jsNumberStr k).isNone &&
    k != "Infinity" && k != "+Infinity" && k != "-Infinity"

mutual

/-- A well-formed tree: a non-empty object with distinct well-formed keys
whose values are scalar leaves or again well-formed trees. -/
def goodVal : JValue → Bool
  | JValue.obj props =>
      !props.isEmpty && decide ((props.map Prod.fst).Nodup) && goodProps props
  | _ => false

/-- Well-formedness of an object's property list. -/
def goodProps : List (String × JValue) → Bool
  | [] => true
  | (k, v) :: rest =>
      goodKey k && (scalarLeaf v || goodVal v) && goodProps rest

end

mutual

/-- Segment-level mirror of `deflate`: the list of (segment list, leaf)
pairs of a tree, in property order, using the same container test as
`deflate`. -/
def deflateSegs : JValue → List (List String × JValue)
  | JValue.obj props => deflateSegsList props
  | _ => []

/-- Segment-level deflation of a property list. -/
def deflateSegsList : List (String × JValue) → List (List String × JValue)
  | [] => []
  | (k, v) :: rest =>
      (if v.truthy && (typeofJs v = "object" : Bool) && !(keysOf v).isEmpty then
        (deflateSegs v).map (fun e => (k :: e.1, e.2))
      else [([k], v)]) ++ deflateSegsList rest

end

/-- Folding `_inflateItem` over segment-level entries (the inner writes of
`inflate`, which all capture the returned value). -/
def inflateFold (entries : List (List String × JValue)) (r : JValue) : JValue :=
  entries.foldl (fun acc e => inflateItem e.1 e.2 acc) r

/-! ### Helper lemmas about association lists and property writes -/

theorem lookupProp_setAssoc_self (l : List (String × JValue)) (k : String)
    (v : JValue) : lookupProp (setAssoc l k v) k = some v := by
  induction l with
  | nil => simp [setAssoc, lookupProp]
  | cons p rest ih =>
      by_cases h : p.1 = k
      · simp [setAssoc, h, lookupProp]
      · simp only [setAssoc, if_neg h]
        simpa [lookupProp, List.find?, h] using ih

theorem setAssoc_setAssoc (l : List (String × JValue)) (k : String)
    (a b : JValue) : setAssoc (setAssoc l k a) k b = setAssoc l k b := by
  induction l with
  | nil => simp [setAssoc]
  | cons p rest ih =>
      by_cases h : p.1 = k
      · simp [setAssoc, h]
      · simp [setAssoc, h, ih]

theorem setAssoc_of_not_mem (l : List (String × JValue)) (k : String)
    (v : JValue) (h : k ∉ l.map Prod.fst) : setAssoc l k v = l ++ [(k, v)] := by
  induction l with
  | nil => simp [setAssoc]
  | cons p rest ih =>
      simp only [List.map_cons, List.mem_cons] at h
      push_neg at h
      simp [setAssoc, Ne.symm h.1, ih h.2]

theorem lookupProp_of_not_mem (l : List (String × JValue)) (k : String)
    (h : k ∉ l.map Prod.fst) : lookupProp l k = none := by
  induction l with
  | nil => simp [lookupProp]
  | cons p rest ih =>
      simp only [List.map_cons, List.mem_cons] at h
      push_neg at h
      have hr : lookupProp rest k = none := ih h.2
      simp only [lookupProp, List.find?] at hr ⊢
      simp only [decide_eq_false (Ne.symm h.1)]
      exact hr

theorem jsSet_jsSet (r : JValue) (k : String) (a b : JValue) :
    jsSet (jsSet r k a) k b = jsSet r k b := by
  cases r <;> simp [jsSet, setAssoc_setAssoc]
  case arr len props =>
    by_cases hc : isCanonIdx k = true <;>
      simp [hc, Nat.max_assoc]

theorem getProp_jsSet_obj (l : List (String × JValue)) (k : String)
    (v : JValue) : getProp (jsSet (JValue.obj l) k v) k = v := by
  simp [jsSet, getProp, lookupProp_setAssoc_self]

theorem getProp_jsSet_arr (n : Nat) (l : List (String × JValue)) (k : String)
    (v : JValue) : getProp (jsSet (JValue.arr n l) k v) k = v := by
  simp [jsSet, getProp, lookupProp_setAssoc_self]

theorem truthy_jsSet (r : JValue) (k : String) (v : JValue)
    (h : r.truthy = true) : (jsSet r k v).truthy = true := by
  cases r <;> simp_all [jsSet, JValue.truthy]

theorem truthy_orEmpty (t : JValue) : (orEmpty t).truthy = true := by
  unfold orEmpty
  split
  · assumption
  · rfl

theorem orEmpty_of_truthy (t : JValue) (h : t.truthy = true) :
    orEmpty t = t := by
  simp [orEmpty, h]

theorem truthy_inflateItem (segs : List String) (v r : JValue)
    (h : r.truthy = true) : (inflateItem segs v r).truthy = true := by
  cases segs with
  | nil => simpa [inflateItem]
  | cons k rest =>
      simp only [inflateItem]
      by_cases hreb : ((jsNumberStr k).isSome && (keysOf r).isEmpty) = true
      · simp only [hreb, if_true]
        split <;> apply truthy_jsSet <;> rfl
      · simp only [Bool.not_eq_true] at hreb
        simp only [hreb, if_false]
        split <;> exact truthy_jsSet _ _ _ h

/-- With a non-numeric head segment, `_inflateItem` never rebinds: it is a
plain property write. -/
theorem inflateItem_cons_nonNum (k : String) (rest : List String)
    (v r : JValue) (hk : jsNumberStr k = none) :
    inflateItem (k :: rest) v r =
      (if rest.isEmpty then jsSet r k v
       else jsSet r k (inflateItem rest v (orEmpty (getProp r k)))) := by
  simp [inflateItem, hk]

/-- Repeating an insertion along the same all-non-numeric segment path
leaves only the second value: the later write overwrites the earlier one. -/
theorem inflateItem_overwrite : ∀ (segs : List String) (v1 v2 r : JValue),
    (∀ s ∈ segs, jsNumberStr s = none) →
    inflateItem segs v2 (inflateItem segs v1 r) = inflateItem segs v2 r := by
  intro segs
  induction segs with
  | nil => intro v1 v2 r _; simp [inflateItem]
  | cons k rest ih =>
      intro v1 v2 r hall
      have hk : jsNumberStr k = none := hall k (by simp)
      have hrest : ∀ s ∈ rest, jsNumberStr s = none := by
        intro s hs; exact hall s (by simp [hs])
      rw [inflateItem_cons_nonNum _ _ _ _ hk, inflateItem_cons_nonNum _ _ _ _ hk,
        inflateItem_cons_nonNum _ _ _ _ hk]
      cases hrest_empty : rest.isEmpty with
      | true => simp [jsSet_jsSet]
      | false =>
          simp only [Bool.false_eq_true, if_false]
          cases r with
          | obj l =>
              have hc1 : (inflateItem rest v1
                  (orEmpty (getProp (JValue.obj l) k))).truthy = true :=
                truthy_inflateItem _ _ _ (truthy_orEmpty _)
              rw [getProp_jsSet_obj, orEmpty_of_truthy _ hc1, jsSet_jsSet,
                ih _ _ _ hrest]
          | arr n l =>
              have hc1 : (inflateItem rest v1
                  (orEmpty (getProp (JValue.arr n l) k))).truthy = true :=
                truthy_inflateItem _ _ _ (truthy_orEmpty _)
              rw [getProp_jsSet_arr, orEmpty_of_truthy _ hc1, jsSet_jsSet,
                ih _ _ _ hrest]
          | undef => simp [jsSet]
          | null => simp [jsSet]
          | bool b => simp [jsSet]
          | num q => simp [jsSet]
          | str s => simp [jsSet]

/-! ### Lemmas for the deflate/inflate round trip -/

theorem setAssoc_lookup_self (l : List (String × JValue)) (k : String)
    (c : JValue) (h : lookupProp l k = some c) : setAssoc l k c = l := by
  induction l with
  | nil => simp [lookupProp] at h
  | cons p rest ih =>
      obtain ⟨p1, p2⟩ := p
      by_cases hp : p1 = k
      · have hd : decide ((p1, p2).1 = k) = true := by simp [hp]
        simp only [lookupProp, List.find?, hd] at h
        simp only [Option.map_some', Option.some.injEq] at h
        subst hp
        subst h
        simp [setAssoc]
      · have hd : decide ((p1, p2).1 = k) = false := by simp [hp]
        simp only [lookupProp, List.find?, hd] at h
        simp [setAssoc, hp, ih h]

theorem enumEntries_eq_self (l : List (String × JValue))
    (h : ∀ p ∈ l, isCanonIdx p.1 = false) : enumEntries l = l := by
  unfold enumEntries
  have h1 : l.filter (fun p => isCanonIdx p.1) = [] := by
    rw [List.filter_eq_nil_iff]
    intro p hp
    simp [h p hp]
  have h2 : l.filter (fun p => !isCanonIdx p.1) = l := by
    rw [List.filter_eq_self]
    intro p hp
    simp [h p hp]
  rw [h1, h2]
  simp

theorem foldl_congr_mem {α β : Type} (l : List β) (g g' : α → β → α) (i : α)
    (h : ∀ a (b : β), b ∈ l → g a b = g' a b) : l.foldl g i = l.foldl g' i := by
  induction l generalizing i with
  | nil => rfl
  | cons x xs ih =>
      simp only [List.foldl_cons]
      rw [h i x (by simp)]
      exact ih _ (fun a b hb => h a b (by simp [hb]))

theorem inflateTop_eq_inflateItem (segs : List String) (v r : JValue)
    (h : ∀ k t, segs = k :: t → jsNumberStr k = none) :
    inflateTop segs v r = inflateItem segs v r := by
  cases segs with
  | nil => rfl
  | cons k t => simp [inflateTop, h k t rfl]

theorem inflateFold_nil (r : JValue) : inflateFold [] r = r := rfl

theorem inflateFold_cons (e : List String × JValue)
    (es : List (List String × JValue)) (r : JValue) :
    inflateFold (e :: es) r = inflateFold es (inflateItem e.1 e.2 r) := rfl

theorem inflateFold_append (a b : List (List String × JValue)) (r : JValue) :
    inflateFold (a ++ b) r = inflateFold b (inflateFold a r) := by
  simp [inflateFold, List.foldl_append]

theorem goodKey_nonNum (k : String) (h : goodKey k = true) :
    jsNumberStr k = none := by
  simp only [goodKey, Bool.and_eq_true] at h
  have := h.1.1.1.2
  simpa [Option.isNone_iff_eq_none] using this

theorem scalarLeaf_typeof (v : JValue) (h : scalarLeaf v = true) :
    ¬(typeofJs v = "object") := by
  cases v <;> simp_all [scalarLeaf, typeofJs]

theorem deflateSegsList_heads : ∀ (props : List (String × JValue)),
    goodProps props = true →
    ∀ e ∈ deflateSegsList props, ∃ k t, e.1 = k :: t ∧ jsNumberStr k = none := by
  intro props
  induction props with
  | nil => intro _ e he; simp [deflateSegsList] at he
  | cons p rest ih =>
      intro hg e he
      obtain ⟨k, v⟩ := p
      simp only [goodProps, Bool.and_eq_true] at hg
      obtain ⟨⟨hgk, _⟩, hgr⟩ := hg
      have hknum : jsNumberStr k = none := goodKey_nonNum k hgk
      simp only [deflateSegsList, List.mem_append] at he
      rcases he with he | he
      · split at he
        · simp only [List.mem_map] at he
          obtain ⟨e', _, rfl⟩ := he
          exact ⟨k, e'.1, rfl, hknum⟩
        · simp only [List.mem_singleton] at he
          subst he
          exact ⟨k, [], rfl, hknum⟩
      · exact ih hgr e he

theorem deflateSegsList_ne_nil : ∀ (n : Nat) (props : List (String × JValue)),
    sizeOf props ≤ n → props ≠ [] → goodProps props = true →
    deflateSegsList props ≠ [] := by
  intro n
  induction n with
  | zero =>
      intro props h hne _
      cases props with
      | nil => exact absurd rfl hne
      | cons p rest => simp at h
  | succ n ih =>
      intro props hs hne hg
      cases props with
      | nil => exact absurd rfl hne
      | cons p rest =>
          obtain ⟨k, v⟩ := p
          simp only [goodProps, Bool.and_eq_true] at hg
          obtain ⟨⟨_, hlv⟩, _⟩ := hg
          simp only [deflateSegsList]
          split
          · rename_i htest
            have hsl : scalarLeaf v = false := by
              by_contra hcon
              simp only [Bool.not_eq_false] at hcon
              simp only [Bool.and_eq_true, decide_eq_true_eq] at htest
              exact scalarLeaf_typeof v hcon htest.1.2
            have hgv : goodVal v = true := by
              rcases Bool.or_eq_true_iff.mp hlv with h | h
              · rw [hsl] at h; exact absurd h (by simp)
              · exact h
            cases v with
            | obj subProps =>
                have hsub : subProps ≠ [] := by
                  simp only [goodVal, Bool.and_eq_true] at hgv
                  simpa [List.isEmpty_iff] using hgv.1.1
                have hgsub : goodProps subProps = true := by
                  simp only [goodVal, Bool.and_eq_true] at hgv
                  exact hgv.2
                have hsz : sizeOf subProps ≤ n := by
                  simp at hs
                  omega
                have := ih subProps hsz hsub hgsub
                simp only [deflateSegs]
                intro hcon
                rcases List.append_eq_nil.mp hcon with ⟨h1, _⟩
                exact this (List.map_eq_nil_iff.mp h1)
            | undef => simp [goodVal] at hgv
            | null => simp [goodVal] at hgv
            | bool b => simp [goodVal] at hgv
            | num q => simp [goodVal] at hgv
            | str s => simp [goodVal] at hgv
            | arr len ps => simp [goodVal] at hgv
          · simp

theorem inflateFold_mapped : ∀ (L : List (List String × JValue)) (k : String)
    (acc : List (String × JValue)) (c : JValue),
    jsNumberStr k = none →
    (∀ e ∈ L, e.1 ≠ []) →
    lookupProp acc k = some c → c.truthy = true →
    inflateFold (L.map (fun e => (k :: e.1, e.2))) (JValue.obj acc)
      = JValue.obj (setAssoc acc k (inflateFold L c)) := by
  intro L
  induction L with
  | nil =>
      intro k acc c _ _ hlook _
      simp [inflateFold_nil, setAssoc_lookup_self acc k c hlook]
  | cons e L' ih =>
      intro k acc c hk hne hlook htr
      obtain ⟨segs, w⟩ := e
      have hsegs : segs ≠ [] := hne (segs, w) (by simp)
      simp only [List.map_cons, inflateFold_cons]
      rw [inflateItem_cons_nonNum _ _ _ _ hk]
      rw [if_neg (by simpa [List.isEmpty_iff] using hsegs)]
      have hget : getProp (JValue.obj acc) k = c := by
        simp [getProp, hlook]
      rw [hget, orEmpty_of_truthy _ htr]
      simp only [jsSet]
      have htr' : (inflateItem segs w c).truthy = true :=
        truthy_inflateItem _ _ _ htr
      rw [ih k (setAssoc acc k (inflateItem segs w c)) (inflateItem segs w c)
        hk (fun e he => hne e (by simp [he]))
        (lookupProp_setAssoc_self _ _ _) htr']
      rw [setAssoc_setAssoc]

/-- Inflating the segment-level deflation of a well-formed property list
into an object accumulator appends exactly those properties. -/
theorem inflateFold_deflateSegsList :
    ∀ (n : Nat) (props acc : List (String × JValue)),
    sizeOf props ≤ n →
    goodProps props = true →
    ((acc ++ props).map Prod.fst).Nodup →
    inflateFold (deflateSegsList props) (JValue.obj acc)
      = JValue.obj (acc ++ props) := by
  intro n
  induction n with
  | zero =>
      intro props acc h _ _
      cases props with
      | nil => simp [deflateSegsList, inflateFold_nil]
      | cons p rest => exfalso; simp at h
  | succ n ih =>
      intro props acc hs hg hnd
      cases props with
      | nil => simp [deflateSegsList, inflateFold_nil]
      | cons p rest =>
          obtain ⟨k, v⟩ := p
          simp only [goodProps, Bool.and_eq_true] at hg
          obtain ⟨⟨hgk, hlv⟩, hgr⟩ := hg
          have hknum : jsNumberStr k = none := goodKey_nonNum k hgk
          have hkacc : k ∉ acc.map Prod.fst := by
            have hmap : ((acc ++ (k, v) :: rest).map Prod.fst) =
                acc.map Prod.fst ++ k :: rest.map Prod.fst := by simp
            rw [hmap] at hnd
            have hdisj := List.disjoint_of_nodup_append hnd
            intro hmem
            exact (hdisj hmem) (List.mem_cons_self _ _)
          have hndrest : (((acc ++ [(k, v)]) ++ rest).map Prod.fst).Nodup := by
            rw [← List.append_cons]
            exact hnd
          simp only [deflateSegsList]
          split
          · rename_i htest
            have hsl : scalarLeaf v = false := by
              by_contra hcon
              simp only [Bool.not_eq_false] at hcon
              simp only [Bool.and_eq_true, decide_eq_true_eq] at htest
              exact scalarLeaf_typeof v hcon htest.1.2
            have hgv : goodVal v = true := by
              cases hgvc : goodVal v with
              | true => rfl
              | false => rw [hsl, hgvc] at hlv; simp at hlv
            cases v with
            | obj subProps =>
                have hsubne : subProps ≠ [] := by
                  simp only [goodVal, Bool.and_eq_true] at hgv
                  simpa [List.isEmpty_iff] using hgv.1.1
                have hsubnd : (subProps.map Prod.fst).Nodup := by
                  simp only [goodVal, Bool.and_eq_true] at hgv
                  exact of_decide_eq_true hgv.1.2
                have hgsub : goodProps subProps = true := by
                  simp only [goodVal, Bool.and_eq_true] at hgv
                  exact hgv.2
                have hszsub : sizeOf subProps ≤ n := by simp at hs; omega
                have hszrest : sizeOf rest ≤ n := by simp at hs; omega
                have hblockne : deflateSegsList subProps ≠ [] :=
                  deflateSegsList_ne_nil (sizeOf subProps) subProps
                    (Nat.le_refl _) hsubne hgsub
                have hheads := deflateSegsList_heads subProps hgsub
                simp only [deflateSegs]
                rw [inflateFold_append]
                cases hb : deflateSegsList subProps with
                | nil => exact absurd hb hblockne
                | cons e0 L' =>
                    obtain ⟨segs0, w0⟩ := e0
                    have hsegs0 : segs0 ≠ [] := by
                      obtain ⟨kk, tt, heq, _⟩ :=
                        hheads (segs0, w0) (by rw [hb]; simp)
                      intro hcon
                      rw [hcon] at heq
                      exact List.noConfusion heq
                    simp only [List.map_cons, inflateFold_cons]
                    rw [inflateItem_cons_nonNum _ _ _ _ hknum]
                    rw [if_neg (by simpa [List.isEmpty_iff] using hsegs0)]
                    have hget : getProp (JValue.obj acc) k = JValue.undef := by
                      simp [getProp, lookupProp_of_not_mem _ _ hkacc]
                    rw [hget]
                    have horE : orEmpty JValue.undef = JValue.obj [] := rfl
                    rw [horE]
                    simp only [jsSet]
                    have htr0 : (inflateItem segs0 w0 (JValue.obj [])).truthy
                        = true := truthy_inflateItem _ _ _ rfl
                    rw [inflateFold_mapped L' k _ _ hknum
                      (fun e he => by
                        obtain ⟨kk, tt, heq, _⟩ :=
                          hheads e (by rw [hb]; simp [he])
                        rw [heq]
                        exact List.noConfusion)
                      (lookupProp_setAssoc_self _ _ _) htr0]
                    rw [setAssoc_setAssoc]
                    have hinner : inflateFold L'
                        (inflateItem segs0 w0 (JValue.obj []))
                        = JValue.obj subProps := by
                      have h1 : inflateFold (deflateSegsList subProps)
                          (JValue.obj []) = JValue.obj ([] ++ subProps) :=
                        ih subProps [] hszsub hgsub (by simpa using hsubnd)
                      rw [hb, inflateFold_cons] at h1
                      simpa using h1
                    rw [hinner]
                    rw [setAssoc_of_not_mem _ _ _ hkacc]
                    rw [ih rest (acc ++ [(k, JValue.obj subProps)]) hszrest
                      hgr hndrest]
                    rw [← List.append_cons]
            | undef => simp [goodVal] at hgv
            | null => simp [goodVal] at hgv
            | bool b => simp [goodVal] at hgv
            | num q => simp [goodVal] at hgv
            | str s => simp [goodVal] at hgv
            | arr len ps => simp [goodVal] at hgv
          · have hszrest : sizeOf rest ≤ n := by simp at hs; omega
            simp only [List.singleton_append, inflateFold_cons]
            rw [inflateItem_cons_nonNum _ _ _ _ hknum]
            simp only [List.isEmpty_nil, if_true]
            simp only [jsSet]
            rw [setAssoc_of_not_mem _ _ _ hkacc]
            rw [ih rest (acc ++ [(k, v)]) hszrest hgr hndrest]
            rw [← List.append_cons]

theorem foldl_splitKey_eq (l : List (String × JValue)) (i : JValue) :
    l.foldl (fun r p => inflateTop (splitKey p.1) p.2 r) i
      = (l.map (fun p => (splitKey p.1, p.2))).foldl
          (fun r e => inflateTop e.1 e.2 r) i := by
  induction l generalizing i with
  | nil => rfl
  | cons x xs ih =>
      simp only [List.foldl_cons, List.map_cons]
      exact ih _

/-- Round trip for a well-formed tree: if the dotted paths `deflate`
produced split back into the original segment sequences (no key contains a
dot or surrounding whitespace) and none of them is a bare array index, then
`inflate` rebuilds the tree exactly. -/
theorem inflate_deflate_good (f : Nat) (T : JValue)
    (hGood : goodVal T = true)
    (hSplit : (deflate f T "").map (fun p => (splitKey p.1, p.2))
      = deflateSegs T)
    (hNoCanon : ∀ p ∈ deflate f T "", isCanonIdx p.1 = false) :
    inflate (deflate f T "") = T := by
  cases T with
  | obj props =>
      have hpnd : (props.map Prod.fst).Nodup := by
        simp only [goodVal, Bool.and_eq_true] at hGood
        exact of_decide_eq_true hGood.1.2
      have hgp : goodProps props = true := by
        simp only [goodVal, Bool.and_eq_true] at hGood
        exact hGood.2
      have hheads := deflateSegsList_heads props hgp
      unfold inflate
      rw [enumEntries_eq_self _ hNoCanon]
      rw [foldl_splitKey_eq, hSplit]
      simp only [deflateSegs]
      rw [foldl_congr_mem _ _ (fun r e => inflateItem e.1 e.2 r) _
        (fun a e he => by
          obtain ⟨kk, tt, heq, hnum⟩ := hheads e he
          apply inflateTop_eq_inflateItem
          intro k t hkt
          rw [heq] at hkt
          injection hkt with h1 _
          rw [← h1]
          exact hnum)]
      have := inflateFold_deflateSegsList (sizeOf props) props []
        (Nat.le_refl _) hgp (by simpa using hpnd)
      simpa [inflateFold] using this
  | undef => simp [goodVal] at hGood
  | null => simp [goodVal] at hGood
  | bool b => simp [goodVal] at hGood
  | num q => simp [goodVal] at hGood
  | str s => simp [goodVal] at hGood
  | arr len ps => simp [goodVal] at hGood

/-! ### Lemmas about `_inflateItem`'s container choice, overwriting, and
array merge lengths -/

theorem isArray_jsSet_arr (n : Nat) (l : List (String × JValue))
    (k : String) (v : JValue) :
    (jsSet (JValue.arr n l) k v).isArray = true := by
  simp [jsSet, JValue.isArray]

/-- A numeric first segment into a target without own keys starts an
array. -/
theorem inflateItem_numeric_empty (seg : String) (rest : List String)
    (v r : JValue) (q : Rat) (hn : jsNumberStr seg = some q)
    (he : keysOf r = []) :
    (inflateItem (seg :: rest) v r).isArray = true := by
  simp only [inflateItem, hn, he]
  simp only [Option.isSome_some, List.isEmpty_nil, Bool.and_self, if_true]
  split <;> exact isArray_jsSet_arr _ _ _ _

/-- Two flat keys with the same trimmed split, made of non-numeric
segments and not themselves bare array indices: the later entry overwrites
the earlier one. -/
theorem inflate_trim_overwrite (k1 k2 : String) (v1 v2 : JValue)
    (hsplit : splitKey k1 = splitKey k2)
    (hnum : ∀ s ∈ splitKey k2, jsNumberStr s = none)
    (hc1 : isCanonIdx k1 = false) (hc2 : isCanonIdx k2 = false) :
    inflate [(k1, v1), (k2, v2)] = inflate [(k2, v2)] := by
  unfold inflate
  rw [enumEntries_eq_self _ (by
    intro p hp
    simp only [List.mem_cons, List.not_mem_nil, or_false] at hp
    rcases hp with rfl | rfl
    · exact hc1
    · exact hc2)]
  rw [enumEntries_eq_self _ (by
    intro p hp
    simp only [List.mem_cons, List.not_mem_nil, or_false] at hp
    rcases hp with rfl
    exact hc2)]
  simp only [List.foldl_cons, List.foldl_nil]
  rw [hsplit]
  have htop : ∀ (w r : JValue), inflateTop (splitKey k2) w r
      = inflateItem (splitKey k2) w r := by
    intro w r
    apply inflateTop_eq_inflateItem
    intro k t hkt
    exact hnum k (by rw [hkt]; simp)
  rw [htop, htop, htop]
  exact inflateItem_overwrite _ _ _ _ hnum

theorem arrMapM_ok_len (g : Nat → JValue → Except MergeError JValue)
    (len : Nat) (props : List (String × JValue)) (R : JValue)
    (h : arrMapM g len props = .ok R) : jsLen R = len := by
  unfold arrMapM at h
  revert h
  cases hres : ((List.range len).foldlM (fun acc i =>
      match lookupProp props (toString i) with
      | some v =>
          match g i v with
          | .error e => .error e
          | .ok r => .ok (acc ++ [(toString i, r)])
      | none => .ok acc) [] :
        Except MergeError (List (String × JValue))) with
  | error e => intro h; exact absurd h (by simp)
  | ok np =>
      intro h
      simp only [Except.ok.injEq] at h
      rw [← h]
      rfl

theorem jsLen_denseArr (l : List JValue) : jsLen (denseArr l) = l.length := rfl

theorem isArray_denseArr (l : List JValue) : (denseArr l).isArray = true := rfl

/-- Array merge of dense arrays: on success the result length is the
incoming length when it exceeds the default's, else the default's length
(so ties keep the default's length). -/
theorem mergeEnvArray_len (f : Nat) (D E : List JValue) (R : JValue)
    (hD : D ≠ [])
    (h : mergeEnvArray (f + 1) (denseArr D) (denseArr E) = .ok R) :
    jsLen R = if E.length > D.length then E.length else D.length := by
  have hne1 : (denseArr D = JValue.undef) = False := by simp [denseArr]
  have hne2 : (denseArr E = JValue.null) = False := by simp [denseArr]
  have hne3 : (denseArr E = JValue.undef) = False := by simp [denseArr]
  have hpos : 0 < D.length := List.length_pos.mpr hD
  simp only [mergeEnvArray, hne1, hne2, hne3, if_false, or_self,
    isArray_denseArr, Bool.not_true, Bool.false_eq_true, jsLen_denseArr,
    gt_iff_lt, hpos, if_true] at h
  by_cases hlen : D.length < E.length
  · rw [if_pos hlen] at h
    rw [if_pos hlen]
    exact arrMapM_ok_len _ _ _ _ h
  · rw [if_neg hlen] at h
    rw [if_neg (by omega)]
    exact arrMapM_ok_len _ _ _ _ h

/-! ### Claim theorems -/

/-- Claim C1.  The claim says that with no default value at a key, `merge`
infers the incoming string's type (numeric first), so `{}` + `{"n":"3.5"}`
gives the number `3.5`.  The code disagrees: the effective type falls back
to `typeof envValue`, which for an environment string is always
`"string"`, so the untyped-inference branch is unreachable and the value is
kept verbatim as the string `"3.5"`.  This theorem evaluates the code at
the claim's input, exhibiting the divergence (the repository's README
documents the inference the claim describes, so this is a code bug). -/
theorem claim1_untyped_value_kept_verbatim :
    merge 9 [("n", "3.5")] (JValue.obj []) (some ["n"])
      = Except.ok (JValue.obj [("n", JValue.str "3.5")])
    ∧ mergeEnvJsonValue 9 JValue.undef (JValue.str "3.5") none
      = Except.ok (JValue.str "3.5") := by
  constructor
  · decide
  · decide

/-- Claim C2, counterexample.  The claim says the incoming strings `"0"`,
`"false"` and `""` never override a default and never raise.  But the
non-empty strings `"0"` and `"false"` are truthy in JavaScript: `"false"`
against the boolean default `true` overrides it with `false`, and `"0"`
against a boolean default raises the type-mismatch error. -/
theorem claim2_cex_falsy_strings_do_coerce :
    mergeEnvJsonValue 9 (JValue.bool true) (JValue.str "false") none
      = Except.ok (JValue.bool false)
    ∧ mergeEnvJsonValue 9 (JValue.bool true) (JValue.str "0") none
      = Except.error MergeError.typeMismatch := by
  constructor
  · decide
  · decide

/-- Claim C2, amended.  Only an incoming value that is falsy in JavaScript
— for strings, exactly the empty string — leaves every default unchanged;
the strings `"0"` and `"false"` are truthy and go through coercion
(`"false"` overrides a boolean default, `"0"` raises against a boolean
default and overrides a numeric default with `0`). -/
theorem claim2_amended_only_empty_string_ignored :
    (∀ (f : Nat) (D : JValue) (dt : Option String),
        mergeEnvJsonValue (f + 1) D (JValue.str "") dt = Except.ok D)
    ∧ mergeEnvJsonValue 9 (JValue.bool true) (JValue.str "false") none
      = Except.ok (JValue.bool false)
    ∧ mergeEnvJsonValue 9 (JValue.bool true) (JValue.str "0") none
      = Except.error MergeError.typeMismatch
    ∧ mergeEnvJsonValue 9 (JValue.num 5) (JValue.str "0") none
      = Except.ok (JValue.num 0) :=
  ⟨fun _ _ _ => rfl, by decide, by decide, by decide⟩

/-- Claim C3.  The claim says auto-selection keeps exactly the ambient
keys extending a default leaf path by a dot.  The code iterates
`for (const key in keys)` over the `keys` *array*, so `key` ranges over
the index strings `"0"`, `"1"`, … and the filter actually tests the
prefixes `"0."`, `"1."`, ….  At default `{a:{b:1}}` (leaf path `"a.b"`)
the ambient entry `"a.b.c"` is not selected (and its value is silently
ignored by `merge`), while an unrelated entry `"0.z"` is selected.  The
spec describes the evident intent, so this is a code bug. -/
theorem claim3_auto_key_filter_uses_indices :
    autoEnvKeys [("a.b.c", "v")]
      (deflateKeys 9 (JValue.obj [("a", JValue.obj [("b", JValue.num 1)])]))
      = []
    ∧ autoEnvKeys [("0.z", "v")]
      (deflateKeys 9 (JValue.obj [("a", JValue.obj [("b", JValue.num 1)])]))
      = ["0.z"]
    ∧ merge 9 [("a.b.c", "v")]
        (JValue.obj [("a", JValue.obj [("b", JValue.num 1)])]) none
      = Except.ok (JValue.obj [("a", JValue.obj [("b", JValue.num 1)])]) := by
  refine ⟨by decide, by decide, by decide⟩

/-- Claim C4, counterexample.  For the root array `["x"]` — a tree whose
leaves are scalars and whose only container is non-empty — deflation
yields the leaf `"0" ↦ "x"`, but `inflate` discards `_inflateItem`'s
rebound array at the top level, so the round trip loses the leaf entirely:
the claimed leaf-path equality fails. -/
theorem claim4_cex_root_array_lost :
    deflate 3 (JValue.arr 1 [("0", JValue.str "x")]) ""
      = [("0", JValue.str "x")]
    ∧ deflate 3 (inflate (deflate 3 (JValue.arr 1 [("0", JValue.str "x")]) "")) ""
      = [] := by
  constructor
  · decide
  · decide

/-- Claim C4, amended.  For a tree that is a non-empty object whose
containers are all non-empty objects with distinct well-formed keys and
whose leaves are scalars, and whose deflated dotted paths split back into
the original key sequences (no key contains a dot or surrounding
whitespace) and are not bare array indices, `inflate ∘ deflate` rebuilds
the tree exactly — in particular the leaf values at all dotted paths are
identical. -/
theorem claim4_amended_roundtrip (f : Nat) (T : JValue)
    (hGood : goodVal T = true)
    (hSplit : (deflate f T "").map (fun p => (splitKey p.1, p.2))
      = deflateSegs T)
    (hNoCanon : ∀ p ∈ deflate f T "", isCanonIdx p.1 = false) :
    inflate (deflate f T "") = T :=
  inflate_deflate_good f T hGood hSplit hNoCanon

/-- Witness for the amended claim C4 at a concrete two-level tree. -/
theorem claim4_amended_roundtrip_witness :
    inflate (deflate 5 (JValue.obj
        [("db", JValue.obj [("host", JValue.str "h"), ("port", JValue.num 8080)]),
         ("name", JValue.str "x")]) "")
      = JValue.obj
        [("db", JValue.obj [("host", JValue.str "h"), ("port", JValue.num 8080)]),
         ("name", JValue.str "x")] :=
  claim4_amended_roundtrip 5 _ (by decide) (by decide) (by decide)

/-- Claim C5, counterexample.  The claim says a flat mapping whose paths
have a numeric first segment inflates to an array at the top level.  In
the code `inflate` ignores `_inflateItem`'s return value, and the rebound
array is lost: the top level stays an (empty) object and the entry is
dropped. -/
theorem claim5_cex_root_numeric_dropped :
    inflate [("0", JValue.str "x")] = JValue.obj [] := by decide

/-- Claim C5, amended.  Inside `_inflateItem` the claimed rule holds at
every level: a first segment that parses as a number written into a target
without own keys starts an array, and a non-numeric segment into an object
keeps an object; but at the root, `inflate` discards the rebound array, so
such top-level entries are lost and the result stays an object. -/
theorem claim5_amended_container_rule :
    (∀ (seg : String) (rest : List String) (v r : JValue) (q : Rat),
        jsNumberStr seg = some q → keysOf r = [] →
        (inflateItem (seg :: rest) v r).isArray = true)
    ∧ (∀ (seg : String) (rest : List String) (v : JValue)
          (props : List (String × JValue)),
        jsNumberStr seg = none →
        (inflateItem (seg :: rest) v (JValue.obj props)).isArray = false)
    ∧ inflate [("0", JValue.str "x")] = JValue.obj [] := by
  refine ⟨fun seg rest v r q hn he =>
      inflateItem_numeric_empty seg rest v r q hn he,
    fun seg rest v props hn => ?_, by decide⟩
  rw [inflateItem_cons_nonNum _ _ _ _ hn]
  split <;> simp [jsSet, JValue.isArray]

/-- Witness for the amended claim C5: segment `"0"` into an empty object
starts an array; segment `"a"` keeps an object. -/
theorem claim5_amended_container_rule_witness :
    (inflateItem ["0"] (JValue.str "x") (JValue.obj [])).isArray = true
    ∧ (inflateItem ["a"] (JValue.str "x") (JValue.obj [])).isArray = false :=
  ⟨claim5_amended_container_rule.1 "0" [] (JValue.str "x") (JValue.obj []) 0
      (by decide) (by decide),
   claim5_amended_container_rule.2.1 "a" [] (JValue.str "x") [] (by decide)⟩

/-- Claim C6.  Array merge of a non-empty dense default `D` with an
incoming dense sequence `E`: any successful result has length
`E.length` when `E` is longer, else `D.length` (ties keep `D`'s length);
and the claim's example — default `{arr:["x","y"]}` with flat entries
`arr.0="a"`, `arr.1="b"`, `arr.2="c"` given as the explicit key list
(as `config` supplies) — merges to `{arr:["a","b","c"]}`, index 2 being
coerced with `D[0]`'s type `"string"` as fallback. -/
theorem claim6_array_merge_length_and_example :
    (∀ (f : Nat) (D E : List JValue) (R : JValue), D ≠ [] →
        mergeEnvArray (f + 1) (denseArr D) (denseArr E) = Except.ok R →
        jsLen R = if E.length > D.length then E.length else D.length)
    ∧ merge 9 [("arr.0", "a"), ("arr.1", "b"), ("arr.2", "c")]
        (JValue.obj [("arr", denseArr [JValue.str "x", JValue.str "y"])])
        (some ["arr.0", "arr.1", "arr.2"])
      = Except.ok (JValue.obj [("arr",
          denseArr [JValue.str "a", JValue.str "b", JValue.str "c"])]) :=
  ⟨fun f D E R hD h => mergeEnvArray_len f D E R hD h, by decide⟩

/-- Witness for claim C6's universal part at `D = ["x","y"]`,
`E = ["a","b","c"]`. -/
theorem claim6_array_merge_length_witness :
    jsLen (JValue.arr 3 [("0", JValue.str "a"), ("1", JValue.str "b"),
        ("2", JValue.str "c")])
      = if [JValue.str "a", JValue.str "b", JValue.str "c"].length >
            [JValue.str "x", JValue.str "y"].length
        then [JValue.str "a", JValue.str "b", JValue.str "c"].length
        else [JValue.str "x", JValue.str "y"].length :=
  claim6_array_merge_length_and_example.1 8
    [JValue.str "x", JValue.str "y"]
    [JValue.str "a", JValue.str "b", JValue.str "c"]
    (JValue.arr 3 [("0", JValue.str "a"), ("1", JValue.str "b"),
      ("2", JValue.str "c")])
    (by decide) (by decide)

/-- Claim C7.  Merging default `{port:8080}` against the flat source
`{"port":"not-a-number"}` raises the type-mismatch error.  (The embedding
is pure, so `merge` cannot modify its `defaultConfig` argument; in the
source, `merge` and its helpers only write to freshly created objects and
arrays, never into `conf`.) -/
theorem claim7_number_mismatch_error :
    merge 9 [("port", "not-a-number")]
      (JValue.obj [("port", JValue.num 8080)]) none
      = Except.error MergeError.typeMismatch := by
  decide

/-- Claim C8.  The incoming string `"false"` against the boolean default
`true` is parsed as JSON and overrides the default: the merge yields
`{flag:false}`. -/
theorem claim8_boolean_false_overrides :
    merge 9 [("flag", "false")] (JValue.obj [("flag", JValue.bool true)]) none
      = Except.ok (JValue.obj [("flag", JValue.bool false)]) := by
  decide

/-- Claim C9, counterexample.  The claim says every truthy incoming string
that does not JSON-parse to a boolean literal raises the type-mismatch
error.  But for `"yes"`, which is not valid JSON at all, `JSON.parse`
itself throws a `SyntaxError` before the type check is reached — a
different error kind than the claimed type mismatch. -/
theorem claim9_cex_syntax_error_not_mismatch :
    mergeEnvJsonValue 9 (JValue.bool true) (JValue.str "yes") none
      = Except.error MergeError.jsonSyntax := by
  decide

/-- Claim C9, amended.  For a boolean default, a truthy incoming string
whose JSON parse *succeeds* with anything other than literal `true` or
`false` raises the type-mismatch error; a string that fails to parse
raises the JSON syntax error instead. -/
theorem claim9_amended_parsed_nonboolean_mismatch (f : Nat) (b : Bool)
    (dt : Option String) (s : String) (v : JValue)
    (hs : s ≠ "") (hp : jsonParse s = some v)
    (ht : v ≠ JValue.bool true) (hf : v ≠ JValue.bool false) :
    mergeEnvJsonValue (f + 1) (JValue.bool b) (JValue.str s) dt
      = Except.error MergeError.typeMismatch := by
  have htr : (JValue.str s).truthy = true := by simp [JValue.truthy, hs]
  simp [mergeEnvJsonValue, htr, JValue.typeofJs, JValue.isArray,
    jsonParseJs, hp, ht, hf]

/-- Witness for the amended claim C9 at the string `"0"`, which parses to
the JSON number `0`. -/
theorem claim9_amended_parsed_nonboolean_mismatch_witness :
    mergeEnvJsonValue 9 (JValue.bool true) (JValue.str "0") none
      = Except.error MergeError.typeMismatch :=
  claim9_amended_parsed_nonboolean_mismatch 8 true none "0" (JValue.num 0)
    (by decide) (by decide) (by decide) (by decide)

/-- Claim C10, counterexample.  The keys `"a.05 "` and `"a.05"` trim to
the same dotted path, yet inflating both does not overwrite the earlier
leaf: the first insertion parses `"05"` as the array index `5` (the
target is empty), the second writes the raw property `"05"` (the target is
now non-empty), so both values survive at different locations. -/
theorem claim10_cex_noncanonical_segment :
    splitKey "a.05 " = splitKey "a.05"
    ∧ inflate [("a.05 ", JValue.str "1"), ("a.05", JValue.str "2")]
      = JValue.obj [("a", JValue.arr 6
          [("5", JValue.str "1"), ("05", JValue.str "2")])] := by
  constructor
  · decide
  · decide

/-- Claim C10, amended.  `inflate` does split each flat key on dots after
trimming it, and for two keys with the same trimmed split the later entry
overwrites the earlier one — provided the path's segments are non-numeric
(so the container choice cannot differ between the two passes) and the
keys are not bare array indices (so `for…in` enumeration keeps their
order). -/
theorem claim10_amended_trim_overwrite (k1 k2 : String) (v1 v2 : JValue)
    (hsplit : splitKey k1 = splitKey k2)
    (hnum : ∀ s ∈ splitKey k2, jsNumberStr s = none)
    (hc1 : isCanonIdx k1 = false) (hc2 : isCanonIdx k2 = false) :
    inflate [(k1, v1), (k2, v2)] = inflate [(k2, v2)] :=
  inflate_trim_overwrite k1 k2 v1 v2 hsplit hnum hc1 hc2

/-- Witness for the amended claim C10 at the keys `"db.host "` and
`"db.host"`. -/
theorem claim10_amended_trim_overwrite_witness :
    inflate [("db.host ", JValue.str "1"), ("db.host", JValue.str "2")]
      = inflate [("db.host", JValue.str "2")] :=
  claim10_amended_trim_overwrite "db.host " "db.host"
    (JValue.str "1") (JValue.str "2")
    (by decide) (by decide) (by decide) (by decide)

end JsonEnv
